import Mathlib

/-!
Verification of the chista service-layer core (`ServiceBase.ts`,
`ServiceError.ts`): a shallow embedding of the invocation orchestrator
`run`, the validation phase with its per-class validator cache, the
`aroundExecute` execution chain, the lifecycle hooks, and the
`ServiceError` constructor, together with theorems settling the spec
claims about them.
-/

namespace Chista

/-- JavaScript-like values, as far as the orchestrator inspects them:
`null`, `undefined`, strings, integers, booleans and (plain) objects
represented as association lists from field name to string value (the
orchestrator never inspects the interior of an object, so string-valued
fields suffice for everything the core reads or produces: error maps
are field-name to error-code-token mappings). -/
inductive JSValue where
  | vnull
  | vundefined
  | vstr (s : String)
  | vnum (n : Int)
  | vbool (b : Bool)
  | vobj (fields : List (String × String))
deriving DecidableEq, Repr

/-- JavaScript truthiness, used by the source in `if (validData)` and
`if (!validation)`. -/
def JSValue.truthy : JSValue → Bool
  | .vnull => false
  | .vundefined => false
  | .vstr s => s ≠ ""
  | .vnum n => n ≠ 0
  | .vbool b => b
  | .vobj _ => true

/-- Whether `typeof v` is the string `object` in JavaScript: true for
objects and for `null`, false for strings, numbers, booleans and
`undefined`. -/
def JSValue.typeofObject : JSValue → Bool
  | .vnull => true
  | .vobj _ => true
  | _ => false

/-- Nullish coalescing `a ?? b`, as in `data ?? {}` of `validate`. -/
def nullish (a b : JSValue) : JSValue :=
  match a with
  | .vnull => b
  | .vundefined => b
  | v => v

/-- The data carried by a successfully constructed `ServiceError`:
the `fields` map (field name to error-code value) and the `code`. -/
structure ServiceErrorData where
  fields : List (String × String)
  code : String
deriving DecidableEq, Repr

/-- Errors as the orchestrator distinguishes them: a `ServiceError`
instance, a plain `Error` with a message (the runtime configuration
checks), or an arbitrary error raised by user code. -/
inductive JSError where
  | serviceError (e : ServiceErrorData)
  | plainError (message : String)
  | other (tag : String)
deriving DecidableEq, Repr

/-- The `ServiceError` constructor from `ServiceError.ts`.  `fields` is
the raw constructor argument; `code` is the raw argument where
`.vundefined` means the argument was omitted, triggering the
destructuring default `VALIDATION_ERROR`.  Construction throws
(returns `.error`) when `fields` is not a non-null object or `code` is
not a non-empty string. -/
def mkServiceError (fields : JSValue) (code : JSValue) : Except String ServiceErrorData :=
  let codeArg : JSValue := match code with
    | .vundefined => .vstr "VALIDATION_ERROR"
    | c => c
  if ¬ fields.typeofObject ∨ fields = .vnull then
    .error "fields must be a non-null object"
  else
    match codeArg with
    | .vstr s =>
        if s = "" then .error "code must be a non-empty string"
        else match fields with
          | .vobj l => .ok ⟨l, s⟩
          | _ => .error "fields must be a non-null object"
    | _ => .error "code must be a non-empty string"

/-- The result of one `validator.validate(data)` call of the LIVR
engine as `ServiceBase` consumes it: `clean` is `some` of the cleaned
data on success and `none` when the engine returned `false`; `errors`
is what a subsequent `getErrors()` reports (`none` for `null`). -/
structure LIVRResult where
  clean : Option JSValue
  errors : Option (List (String × String))
deriving DecidableEq, Repr

/-- The abstract LIVR validation engine compiled from one schema: a
deterministic function from input data to a validation result (the
engine itself is an external collaborator of the core). -/
def Engine : Type := JSValue → LIVRResult

/-- One service class (a `ServiceDefinition`): its identity (for the
per-class validator cache), its name (used in error messages), its
static `validation` property (`none` models the property being
`undefined`/absent) and the engine semantics its schema compiles to. -/
structure ServiceClass where
  classId : Nat
  name : String
  validation : Option JSValue
  engine : Engine

/-- State of the per-class validator cache: `cache` maps a class
identity to the id of the validator instance stored on that class
(`ctor.__validator`), and `nextId` is the id a fresh
`new Validator(...)` allocation would receive. -/
structure CacheState where
  nextId : Nat
  cache : List (Nat × Nat)
deriving DecidableEq, Repr

/-- The empty cache: no class has a validator built yet. -/
def CacheState.empty : CacheState := ⟨0, []⟩

/-- The private `doValidationWithValidator` method from
`ServiceBase.ts`: run the
validator, return the clean data when it is truthy, otherwise throw a
`ServiceError` with `fields = validator.getErrors() ?? {}` (the `code`
argument is omitted, so it defaults). -/
def doValidationWithValidator (engine : Engine) (data : JSValue) : Except JSError JSValue :=
  let r := engine data
  let validData := r.clean.getD (.vbool false)
  if validData.truthy then .ok validData
  else
    match mkServiceError (.vobj (r.errors.getD [])) .vundefined with
    | .ok e => .error (.serviceError e)
    | .error m => .error (.plainError m)

/-- The `validate` method from `ServiceBase.ts`, in state-passing style over the
validator cache.  Returns the outcome, the id of the cached validator
instance used (`none` when no schema is configured or the
configuration check throws), and the updated cache state.
Mirrors the source: a present but non-object (or null) `validation`
throws a plain configuration `Error`; an absent schema returns
`data ?? {}` unvalidated; otherwise the per-class validator is fetched
or built once, then applied. -/
def validate (cls : ServiceClass) (data : JSValue) (st : CacheState) :
    Except JSError JSValue × Option Nat × CacheState :=
  match cls.validation with
  | none => (.ok (nullish data (.vobj [])), none, st)
  | some v =>
      if ¬ v.typeofObject ∨ v = .vnull then
        (.error (.plainError (cls.name ++ ": validation must be a non-null object")), none, st)
      else
        match st.cache.lookup cls.classId with
        | some vid => (doValidationWithValidator cls.engine data, some vid, st)
        | none =>
            let vid := st.nextId
            let st1 : CacheState := ⟨st.nextId + 1, (cls.classId, vid) :: st.cache⟩
            (doValidationWithValidator cls.engine data, some vid, st1)

/-- The `RunContext` of one invocation, as `run` builds and mutates
it: raw input, clean data (`none` until validation succeeds), start
time, and completion time / duration (`none` until the execution chain
completes).  Times are abstract clock ticks. -/
structure RunContext where
  inputData : JSValue
  cleanData : Option JSValue
  startTime : Nat
  endTime : Option Nat
  executionTimeMs : Option Int
deriving DecidableEq, Repr

/-- Events user code inside the execution chain can produce: ordering
markers pushed by `aroundExecute` layers, and the business-logic
`execute` call made through the `proceed` continuation. -/
inductive ExecEvent where
  | marker (s : String)
  | executeCalled (arg : JSValue)
deriving DecidableEq, Repr

/-- Observable events of one `run` invocation, in order.  The
orchestrator-phase events (`checkPermissionsCalled`,
`aroundExecuteCalled`, the two hook events) are emitted only by `run`
itself; events from inside the execution chain are embedded via
`execEv`. -/
inductive Event where
  | checkPermissionsCalled (arg : JSValue)
  | aroundExecuteCalled (arg : JSValue)
  | execEv (e : ExecEvent)
  | onSuccessCalled (result : JSValue) (ctx : RunContext)
  | onErrorCalled (err : JSError) (ctx : RunContext)
deriving DecidableEq, Repr

/-- The execution-chain phase of a service: the effective
`aroundExecute(cleanData, proceed)` call with `proceed` already bound
to `execute`, producing the events of the chain and either a result or
a raised error. -/
def ExecPhase : Type := JSValue → List ExecEvent × Except JSError JSValue

/-- One service instance as `run` consumes it.  The two `Implemented`
flags model the runtime duck-typing checks (`typeof this.execute` not being
a function, the escape hatch for JavaScript users); the
user-supplied phases may raise (`.error`). -/
structure Service where
  cls : ServiceClass
  executeImplemented : Bool
  checkPermissionsImplemented : Bool
  checkPermissions : JSValue → Except JSError Bool
  execPhase : ExecPhase
  onSuccess : JSValue → RunContext → Except JSError Unit
  onError : JSError → RunContext → Except JSError Unit

/-- The result of one `run` invocation: the settled outcome of the
returned promise, the ordered event trace, the final `RunContext`
(`none` when `run` threw before creating it) and the final cache
state. -/
structure RunResult where
  outcome : Except JSError JSValue
  trace : List Event
  finalCtx : Option RunContext
  finalState : CacheState

/-- The `catch` block of `run`: invoke `onError(error, context)` and
re-throw the original error; if the hook itself raises, the error of
the hook propagates instead (masking the original), exactly as an
`await` rejection inside a `catch` block does. -/
def handleError (svc : Service) (e : JSError) (ctx : RunContext) (tr : List Event)
    (st : CacheState) : RunResult :=
  match svc.onError e ctx with
  | .ok _ => ⟨.error e, tr ++ [.onErrorCalled e ctx], some ctx, st⟩
  | .error e2 => ⟨.error e2, tr ++ [.onErrorCalled e ctx], some ctx, st⟩

/-- The `run` method from `ServiceBase.ts`: the runtime method checks (before the
context exists and outside the `try`), then context creation,
validation, `checkPermissions(cleanData)`,
`aroundExecute(cleanData, proceed)`, the completion-time stamps, and
exactly the hook/error behavior of the source `try`/`catch`.  `t0` is
the clock at entry and `t1` the clock when the chain completes. -/
def run (svc : Service) (inputData : JSValue) (st : CacheState) (t0 t1 : Nat) : RunResult :=
  if ¬ svc.executeImplemented then
    ⟨.error (.plainError (svc.cls.name ++ ": execute() must be implemented")), [], none, st⟩
  else if ¬ svc.checkPermissionsImplemented then
    ⟨.error (.plainError (svc.cls.name ++ ": checkPermissions() must be implemented")), [], none, st⟩
  else
    let ctx0 : RunContext := ⟨inputData, none, t0, none, none⟩
    match validate svc.cls inputData st with
    | (.error e, _, st1) => handleError svc e ctx0 [] st1
    | (.ok clean, _, st1) =>
        let ctx1 := { ctx0 with cleanData := some clean }
        let tr1 : List Event := [.checkPermissionsCalled clean]
        match svc.checkPermissions clean with
        | .error e => handleError svc e ctx1 tr1 st1
        | .ok _ =>
            let (trExec, res) := svc.execPhase clean
            let tr2 := tr1 ++ [.aroundExecuteCalled clean] ++ trExec.map .execEv
            match res with
            | .error e => handleError svc e ctx1 tr2 st1
            | .ok result =>
                let ctx2 := { ctx1 with
                  endTime := some t1
                  executionTimeMs := some ((t1 : Int) - (t0 : Int)) }
                match svc.onSuccess result ctx2 with
                | .ok _ =>
                    ⟨.ok result, tr2 ++ [.onSuccessCalled result ctx2], some ctx2, st1⟩
                | .error e =>
                    handleError svc e ctx2 (tr2 ++ [.onSuccessCalled result ctx2]) st1

/-- The execution chain produced by `n` layered `aroundExecute`
overrides on top of the base class, each of the shape of the chaining
test: push a before marker, `await super.aroundExecute(data, proceed)`,
push an after marker (the after marker is skipped when the inner call
raises, since the `await` throws first).  Layer `n` is the most
derived; layer `0` is `ServiceBase.aroundExecute`, which just calls
`proceed(cleanData)`. -/
def layeredExec (n : Nat) (inner : ExecPhase) (data : JSValue) :
    List ExecEvent × Except JSError JSValue :=
  match n with
  | 0 => inner data
  | k + 1 =>
      let (tr, res) := layeredExec k inner data
      match res with
      | .ok v =>
          (.marker ("before_" ++ toString (k + 1)) :: tr ++
            [.marker ("after_" ++ toString (k + 1))], .ok v)
      | .error e =>
          (.marker ("before_" ++ toString (k + 1)) :: tr, .error e)

/-- The business-logic call at the innermost end of the chain:
`proceed = (data) => this.execute(data)`, recording the `execute`
invocation and returning `exec data`. -/
def execLink (exec : JSValue → Except JSError JSValue) : ExecPhase :=
  fun data => ([.executeCalled data], exec data)

/-- Is this event an invocation of `checkPermissions` by the
orchestrator? -/
def Event.isCheckPermissions : Event → Bool
  | .checkPermissionsCalled _ => true
  | _ => false

/-- Is this event the invocation of the execution chain
(`aroundExecute`) by the orchestrator? -/
def Event.isAroundExecute : Event → Bool
  | .aroundExecuteCalled _ => true
  | _ => false

/-- Is this event an invocation of the business logic `execute`
through the `proceed` continuation? -/
def Event.isExecuteCall : Event → Bool
  | .execEv (.executeCalled _) => true
  | _ => false

/-- Is this event an invocation of the `onSuccess` hook? -/
def Event.isOnSuccess : Event → Bool
  | .onSuccessCalled _ _ => true
  | _ => false

/-- Is this event an invocation of the `onError` hook? -/
def Event.isOnError : Event → Bool
  | .onErrorCalled _ _ => true
  | _ => false

/-- Is this event an invocation of either lifecycle hook? -/
def Event.isHookEvent : Event → Bool
  | .onSuccessCalled _ _ => true
  | .onErrorCalled _ _ => true
  | _ => false

theorem countP_execEv_map (l : List ExecEvent) (p : Event → Bool)
    (h : ∀ e, p (.execEv e) = false) : (l.map Event.execEv).countP p = 0 := by
  induction l with
  | nil => simp
  | cons a t ih => simp [List.countP_cons, h, ih]

/-- Decomposition of `run` when the runtime checks pass and
validation throws: the `catch` block runs on an otherwise fresh
context with an empty trace. -/
theorem run_validate_error (svc : Service) (input : JSValue) (st : CacheState)
    (t0 t1 : Nat) (e : JSError) (vid : Option Nat) (st1 : CacheState)
    (hex : svc.executeImplemented = true)
    (hcp : svc.checkPermissionsImplemented = true)
    (hval : validate svc.cls input st = (.error e, vid, st1)) :
    run svc input st t0 t1 = handleError svc e ⟨input, none, t0, none, none⟩ [] st1 := by
  unfold run
  rw [hex, hcp]
  simp only [Bool.not_true, Bool.false_eq_true, if_false, hval]
  simp

/-- Decomposition of `run` when validation succeeds but
`checkPermissions` throws. -/
theorem run_perm_error (svc : Service) (input : JSValue) (st : CacheState)
    (t0 t1 : Nat) (clean : JSValue) (vid : Option Nat) (st1 : CacheState) (e : JSError)
    (hex : svc.executeImplemented = true)
    (hcp : svc.checkPermissionsImplemented = true)
    (hval : validate svc.cls input st = (.ok clean, vid, st1))
    (hperm : svc.checkPermissions clean = .error e) :
    run svc input st t0 t1 =
      handleError svc e ⟨input, some clean, t0, none, none⟩
        [.checkPermissionsCalled clean] st1 := by
  unfold run
  rw [hex, hcp]
  simp only [Bool.not_true, Bool.false_eq_true, if_false, hval, hperm]
  simp

/-- Decomposition of `run` when validation and the permission check
succeed but the execution chain throws. -/
theorem run_exec_error (svc : Service) (input : JSValue) (st : CacheState)
    (t0 t1 : Nat) (clean : JSValue) (vid : Option Nat) (st1 : CacheState) (b : Bool)
    (trExec : List ExecEvent) (e : JSError)
    (hex : svc.executeImplemented = true)
    (hcp : svc.checkPermissionsImplemented = true)
    (hval : validate svc.cls input st = (.ok clean, vid, st1))
    (hperm : svc.checkPermissions clean = .ok b)
    (hchain : svc.execPhase clean = (trExec, .error e)) :
    run svc input st t0 t1 =
      handleError svc e ⟨input, some clean, t0, none, none⟩
        ([.checkPermissionsCalled clean, .aroundExecuteCalled clean] ++
          trExec.map .execEv) st1 := by
  unfold run
  rw [hex, hcp]
  simp only [Bool.not_true, Bool.false_eq_true, if_false, hval, hperm, hchain]
  simp

/-- Decomposition of `run` on the fully successful path, where the
`onSuccess` hook completes normally. -/
theorem run_success (svc : Service) (input : JSValue) (st : CacheState)
    (t0 t1 : Nat) (clean : JSValue) (vid : Option Nat) (st1 : CacheState) (b : Bool)
    (trExec : List ExecEvent) (r : JSValue)
    (hex : svc.executeImplemented = true)
    (hcp : svc.checkPermissionsImplemented = true)
    (hval : validate svc.cls input st = (.ok clean, vid, st1))
    (hperm : svc.checkPermissions clean = .ok b)
    (hchain : svc.execPhase clean = (trExec, .ok r))
    (hhook : svc.onSuccess r ⟨input, some clean, t0, some t1, some ((t1 : Int) - (t0 : Int))⟩ = .ok ()) :
    run svc input st t0 t1 =
      ⟨.ok r,
        [.checkPermissionsCalled clean, .aroundExecuteCalled clean] ++
          trExec.map .execEv ++
          [.onSuccessCalled r ⟨input, some clean, t0, some t1, some ((t1 : Int) - (t0 : Int))⟩],
        some ⟨input, some clean, t0, some t1, some ((t1 : Int) - (t0 : Int))⟩, st1⟩ := by
  unfold run
  rw [hex, hcp]
  simp only [Bool.not_true, Bool.false_eq_true, if_false, hval, hperm, hchain, hhook]
  simp [List.append_assoc]

/-- Decomposition of `run` when the chain completes but the
`onSuccess` hook itself throws: the `catch` block then also invokes
`onError`. -/
theorem run_success_hook_throws (svc : Service) (input : JSValue) (st : CacheState)
    (t0 t1 : Nat) (clean : JSValue) (vid : Option Nat) (st1 : CacheState) (b : Bool)
    (trExec : List ExecEvent) (r : JSValue) (e : JSError)
    (hex : svc.executeImplemented = true)
    (hcp : svc.checkPermissionsImplemented = true)
    (hval : validate svc.cls input st = (.ok clean, vid, st1))
    (hperm : svc.checkPermissions clean = .ok b)
    (hchain : svc.execPhase clean = (trExec, .ok r))
    (hhook : svc.onSuccess r ⟨input, some clean, t0, some t1, some ((t1 : Int) - (t0 : Int))⟩ = .error e) :
    run svc input st t0 t1 =
      handleError svc e ⟨input, some clean, t0, some t1, some ((t1 : Int) - (t0 : Int))⟩
        ([.checkPermissionsCalled clean, .aroundExecuteCalled clean] ++
          trExec.map .execEv ++
          [.onSuccessCalled r ⟨input, some clean, t0, some t1, some ((t1 : Int) - (t0 : Int))⟩]) st1 := by
  unfold run
  rw [hex, hcp]
  simp only [Bool.not_true, Bool.false_eq_true, if_false, hval, hperm, hchain, hhook]
  simp [List.append_assoc]

theorem handleError_finalCtx (svc : Service) (e : JSError) (ctx : RunContext)
    (tr : List Event) (st : CacheState) :
    (handleError svc e ctx tr st).finalCtx = some ctx := by
  unfold handleError
  cases svc.onError e ctx <;> simp

theorem handleError_trace (svc : Service) (e : JSError) (ctx : RunContext)
    (tr : List Event) (st : CacheState) :
    (handleError svc e ctx tr st).trace = tr ++ [.onErrorCalled e ctx] := by
  unfold handleError
  cases svc.onError e ctx <;> simp

theorem handleError_state (svc : Service) (e : JSError) (ctx : RunContext)
    (tr : List Event) (st : CacheState) :
    (handleError svc e ctx tr st).finalState = st := by
  unfold handleError
  cases svc.onError e ctx <;> simp

theorem handleError_outcome_of_ok (svc : Service) (e : JSError) (ctx : RunContext)
    (tr : List Event) (st : CacheState) (h : svc.onError e ctx = .ok ()) :
    (handleError svc e ctx tr st).outcome = .error e := by
  unfold handleError
  rw [h]

/-- On every path through `run` on which validation succeeded, the
final context carries exactly the clean data. -/
theorem run_finalCtx_cleanData (svc : Service) (input : JSValue) (st : CacheState)
    (t0 t1 : Nat) (clean : JSValue) (vid : Option Nat) (st1 : CacheState)
    (hex : svc.executeImplemented = true)
    (hcp : svc.checkPermissionsImplemented = true)
    (hval : validate svc.cls input st = (.ok clean, vid, st1)) :
    (run svc input st t0 t1).finalCtx.map RunContext.cleanData = some (some clean) := by
  rcases hperm : svc.checkPermissions clean with e | b
  · rw [run_perm_error svc input st t0 t1 clean vid st1 e hex hcp hval hperm,
      handleError_finalCtx]
    rfl
  · rcases hchain : svc.execPhase clean with ⟨trExec, res⟩
    rcases res with e | r
    · rw [run_exec_error svc input st t0 t1 clean vid st1 b trExec e hex hcp hval hperm hchain,
        handleError_finalCtx]
      rfl
    · rcases hhook : svc.onSuccess r ⟨input, some clean, t0, some t1, some ((t1 : Int) - (t0 : Int))⟩
        with e | u
      · rw [run_success_hook_throws svc input st t0 t1 clean vid st1 b trExec r e
          hex hcp hval hperm hchain hhook, handleError_finalCtx]
        rfl
      · cases u
        rw [run_success svc input st t0 t1 clean vid st1 b trExec r hex hcp hval hperm hchain hhook]
        rfl

/-- A minimal well-behaved service over a given class: permissive
permission check, identity business logic, no-op default hooks, both
required methods implemented. -/
def plainService (cls : ServiceClass) : Service :=
  ⟨cls, true, true, fun _ => .ok true, execLink (fun d => .ok d),
    fun _ _ => .ok (), fun _ _ => .ok ()⟩

/-- A service class with no validation schema configured. -/
def noSchemaClass : ServiceClass := ⟨0, "NoSchema", none, fun _ => ⟨none, none⟩⟩

/-- C9: `ServiceError` construction succeeds if and only if the
`fields` argument is a non-null object and the (defaulted) `code`
argument is a non-empty string; `code` defaults to `VALIDATION_ERROR`
when omitted, and on success the constructed error exposes exactly the
given fields (possibly empty, never absent) and code. -/
theorem c9_serviceError_construction (fields code : JSValue) :
    ((∃ e, mkServiceError fields code = .ok e) ↔
      ((∃ l, fields = .vobj l) ∧
        (code = .vundefined ∨ ∃ s, code = .vstr s ∧ s ≠ ""))) ∧
    (∀ l, fields = .vobj l → code = .vundefined →
      mkServiceError fields code = .ok ⟨l, "VALIDATION_ERROR"⟩) ∧
    (∀ l s, fields = .vobj l → code = .vstr s → s ≠ "" →
      mkServiceError fields code = .ok ⟨l, s⟩) := by
  refine ⟨?_, ?_, ?_⟩
  · cases fields <;> cases code <;>
      simp [mkServiceError, JSValue.typeofObject]
    case vobj.vstr l s =>
      by_cases hs : s = "" <;> simp [hs]
  · intro l hf hc
    subst hf; subst hc
    simp [mkServiceError, JSValue.typeofObject]
  · intro l s hf hc hs
    subst hf; subst hc
    simp [mkServiceError, JSValue.typeofObject, hs]

/-- Witness for C9 at a concrete construction. -/
theorem c9_witness :
    mkServiceError (.vobj [("email", "REQUIRED")]) .vundefined =
      .ok ⟨[("email", "REQUIRED")], "VALIDATION_ERROR"⟩ :=
  (c9_serviceError_construction (.vobj [("email", "REQUIRED")]) .vundefined).2.1
    [("email", "REQUIRED")] rfl rfl

/-- C10: when `execute` (or, `execute` being present, when
`checkPermissions`) is not a callable method, `run` rejects with a
plain `Error` naming the class and the missing method; the trace is
empty (neither hook runs, validation never starts) and the context is
never created. -/
theorem c10_missing_method_rejects (svc : Service) (input : JSValue)
    (st : CacheState) (t0 t1 : Nat) :
    (svc.executeImplemented = false →
      run svc input st t0 t1 =
        ⟨.error (.plainError (svc.cls.name ++ ": execute() must be implemented")),
          [], none, st⟩) ∧
    (svc.executeImplemented = true → svc.checkPermissionsImplemented = false →
      run svc input st t0 t1 =
        ⟨.error (.plainError (svc.cls.name ++ ": checkPermissions() must be implemented")),
          [], none, st⟩) := by
  constructor
  · intro h
    unfold run
    rw [h]
    simp
  · intro h1 h2
    unfold run
    rw [h1, h2]
    simp

/-- A service that forgot to implement `execute` (only expressible by
a JavaScript caller; the runtime duck-typing check catches it). -/
def incompleteService : Service :=
  ⟨⟨1, "IncompleteService", none, fun _ => ⟨none, none⟩⟩, false, true,
    fun _ => .ok true, execLink (fun d => .ok d),
    fun _ _ => .ok (), fun _ _ => .ok ()⟩

/-- Witness for C10 at a concrete incomplete service. -/
theorem c10_witness :
    run incompleteService (.vobj []) CacheState.empty 0 1 =
      ⟨.error (.plainError "IncompleteService: execute() must be implemented"),
        [], none, CacheState.empty⟩ :=
  (c10_missing_method_rejects incompleteService (.vobj []) CacheState.empty 0 1).1 rfl

/-- C8: with no validation schema configured, `validate` normalizes
`null`/`undefined` input to an empty object, so `run` on `null`,
`undefined` and `{}` all observe the same clean data, while any other
raw input passes through to later phases unvalidated and unchanged. -/
theorem c8_no_schema_normalization (cls : ServiceClass) (st : CacheState)
    (h : cls.validation = none) :
    (validate cls .vnull st = (.ok (.vobj []), none, st)) ∧
    (validate cls .vundefined st = (.ok (.vobj []), none, st)) ∧
    (validate cls (.vobj []) st = (.ok (.vobj []), none, st)) ∧
    (∀ d, d ≠ .vnull → d ≠ .vundefined → validate cls d st = (.ok d, none, st)) ∧
    (∀ svc : Service, svc.cls = cls → svc.executeImplemented = true →
      svc.checkPermissionsImplemented = true → ∀ t0 t1,
        ((run svc .vnull st t0 t1).finalCtx.map RunContext.cleanData =
          some (some (.vobj []))) ∧
        ((run svc .vundefined st t0 t1).finalCtx.map RunContext.cleanData =
          some (some (.vobj []))) ∧
        ((run svc (.vobj []) st t0 t1).finalCtx.map RunContext.cleanData =
          some (some (.vobj [])))) := by
  refine ⟨?_, ?_, ?_, ?_, ?_⟩
  · simp [validate, h, nullish]
  · simp [validate, h, nullish]
  · simp [validate, h, nullish]
  · intro d h1 h2
    cases d <;> simp_all [validate, nullish]
  · intro svc hc hex hcp t0 t1
    refine ⟨?_, ?_, ?_⟩ <;>
      exact run_finalCtx_cleanData svc _ st t0 t1 (.vobj []) none st hex hcp
        (by rw [hc]; simp [validate, h, nullish])

/-- Witness for C8 at a concrete class, state and inputs. -/
theorem c8_witness :
    validate noSchemaClass .vnull CacheState.empty =
      (.ok (.vobj []), none, CacheState.empty) ∧
    validate noSchemaClass (.vstr "x") CacheState.empty =
      (.ok (.vstr "x"), none, CacheState.empty) ∧
    (run (plainService noSchemaClass) .vundefined CacheState.empty 0 1).finalCtx.map
      RunContext.cleanData = some (some (.vobj [])) :=
  ⟨(c8_no_schema_normalization noSchemaClass CacheState.empty rfl).1,
    (c8_no_schema_normalization noSchemaClass CacheState.empty rfl).2.2.2.1
      (.vstr "x") (by decide) (by decide),
    ((c8_no_schema_normalization noSchemaClass CacheState.empty rfl).2.2.2.2
      (plainService noSchemaClass) rfl rfl rfl 0 1).2.1⟩

/-- C1: for any service whose class carries a well-formed validation
schema, when the validator rejects the input, `run` rejects with a
`ServiceError` whose code is `VALIDATION_ERROR` and whose fields are
exactly the per-field errors the validator reported, and neither
`checkPermissions` nor the execution chain (`aroundExecute`/`execute`)
is ever invoked on that path. -/
theorem c1_validation_failure (svc : Service) (input : JSValue) (st : CacheState)
    (t0 t1 : Nat) (v : JSValue) (errs : List (String × String))
    (hex : svc.executeImplemented = true)
    (hcp : svc.checkPermissionsImplemented = true)
    (hv : svc.cls.validation = some v)
    (hobj : v.typeofObject = true) (hnn : v ≠ .vnull)
    (hfail : svc.cls.engine input = ⟨none, some errs⟩)
    (hhook : ∀ e c, svc.onError e c = .ok ()) :
    (run svc input st t0 t1).outcome =
      .error (.serviceError ⟨errs, "VALIDATION_ERROR"⟩) ∧
    (run svc input st t0 t1).trace =
      [.onErrorCalled (.serviceError ⟨errs, "VALIDATION_ERROR"⟩)
        ⟨input, none, t0, none, none⟩] ∧
    (run svc input st t0 t1).trace.countP Event.isCheckPermissions = 0 ∧
    (run svc input st t0 t1).trace.countP Event.isAroundExecute = 0 ∧
    (run svc input st t0 t1).trace.countP Event.isExecuteCall = 0 := by
  have hdo : doValidationWithValidator svc.cls.engine input =
      .error (.serviceError ⟨errs, "VALIDATION_ERROR"⟩) := by
    simp [doValidationWithValidator, hfail, JSValue.truthy, mkServiceError,
      JSValue.typeofObject]
  have hcond : ¬ (¬ v.typeofObject = true ∨ v = .vnull) := by
    simp [hobj, hnn]
  obtain ⟨vid, st1, hval⟩ : ∃ vid st1, validate svc.cls input st =
      (.error (.serviceError ⟨errs, "VALIDATION_ERROR"⟩), some vid, st1) := by
    cases hl : st.cache.lookup svc.cls.classId with
    | none =>
        refine ⟨st.nextId, ⟨st.nextId + 1, (svc.cls.classId, st.nextId) :: st.cache⟩, ?_⟩
        simp [validate, hv, hobj, hnn, hl, hdo]
    | some vid =>
        refine ⟨vid, st, ?_⟩
        simp [validate, hv, hobj, hnn, hl, hdo]
  rw [run_validate_error svc input st t0 t1 _ (some vid) st1 hex hcp hval]
  unfold handleError
  rw [hhook]
  refine ⟨rfl, rfl, ?_, ?_, ?_⟩ <;>
    simp [List.countP_cons, Event.isCheckPermissions, Event.isAroundExecute,
      Event.isExecuteCall]

/-- A concrete schema class: the engine accepts objects whose first
field is a non-empty `name`, cleaning them down to just that field,
and reports a per-field `REQUIRED` error otherwise (the concrete
scenario of the spec). -/
def nameSchemaClass : ServiceClass :=
  ⟨2, "UsersCreate", some (.vobj [("name", "required")]),
    fun d => match d with
      | .vobj (("name", s) :: _) =>
          if s = "" then ⟨none, some [("name", "CANNOT_BE_EMPTY")]⟩
          else ⟨some (.vobj [("name", s)]), none⟩
      | _ => ⟨none, some [("name", "REQUIRED")]⟩⟩

/-- Witness for C1 at a concrete failing input. -/
theorem c1_witness :
    (run (plainService nameSchemaClass) (.vobj []) CacheState.empty 0 1).outcome =
      .error (.serviceError ⟨[("name", "REQUIRED")], "VALIDATION_ERROR"⟩) :=
  (c1_validation_failure (plainService nameSchemaClass) (.vobj []) CacheState.empty 0 1
    (.vobj [("name", "required")]) [("name", "REQUIRED")] rfl rfl rfl rfl (by decide)
    rfl (fun _ _ => rfl)).1

/-- On any invocation passing the runtime checks whose validation
succeeds, the trace starts with the `checkPermissions` invocation on
the clean data and no later event is a `checkPermissions`
invocation. -/
theorem run_trace_shape_ok (svc : Service) (input : JSValue) (st : CacheState)
    (t0 t1 : Nat) (clean : JSValue) (vid : Option Nat) (st1 : CacheState)
    (hex : svc.executeImplemented = true)
    (hcp : svc.checkPermissionsImplemented = true)
    (hval : validate svc.cls input st = (.ok clean, vid, st1)) :
    ∃ tail : List Event,
      (run svc input st t0 t1).trace = .checkPermissionsCalled clean :: tail ∧
      ∀ ev ∈ tail, ev.isCheckPermissions = false := by
  rcases hperm : svc.checkPermissions clean with e | b
  · rw [run_perm_error svc input st t0 t1 clean vid st1 e hex hcp hval hperm,
      handleError_trace]
    refine ⟨_, rfl, ?_⟩
    simp [Event.isCheckPermissions]
  · rcases hchain : svc.execPhase clean with ⟨trExec, res⟩
    rcases res with e | r
    · rw [run_exec_error svc input st t0 t1 clean vid st1 b trExec e hex hcp hval hperm hchain,
        handleError_trace]
      refine ⟨.aroundExecuteCalled clean :: (trExec.map .execEv ++
        [.onErrorCalled e ⟨input, some clean, t0, none, none⟩]), by simp, ?_⟩
      intro ev hev
      simp at hev
      rcases hev with h | ⟨x, _, h⟩ | h <;> subst h <;> rfl
    · rcases hhook : svc.onSuccess r ⟨input, some clean, t0, some t1, some ((t1 : Int) - (t0 : Int))⟩
        with e | u
      · rw [run_success_hook_throws svc input st t0 t1 clean vid st1 b trExec r e
          hex hcp hval hperm hchain hhook, handleError_trace]
        refine ⟨.aroundExecuteCalled clean :: (trExec.map .execEv ++
          [.onSuccessCalled r ⟨input, some clean, t0, some t1, some ((t1 : Int) - (t0 : Int))⟩,
            .onErrorCalled e ⟨input, some clean, t0, some t1, some ((t1 : Int) - (t0 : Int))⟩]),
          by simp, ?_⟩
        intro ev hev
        simp at hev
        rcases hev with h | ⟨x, _, h⟩ | h | h <;> subst h <;> rfl
      · cases u
        rw [run_success svc input st t0 t1 clean vid st1 b trExec r hex hcp hval hperm hchain hhook]
        refine ⟨.aroundExecuteCalled clean :: (trExec.map .execEv ++
          [.onSuccessCalled r ⟨input, some clean, t0, some t1, some ((t1 : Int) - (t0 : Int))⟩]),
          by simp, ?_⟩
        intro ev hev
        simp at hev
        rcases hev with h | ⟨x, _, h⟩ | h <;> subst h <;> rfl

/-- C3: on every invocation passing the runtime checks, if validation
succeeds then the orchestrator invokes `checkPermissions` exactly
once, strictly after validation (its invocation heads the event
trace), and every `checkPermissions` invocation receives the clean
data returned by `validate`; if validation throws, `checkPermissions`
is never invoked. -/
theorem c3_permissions_after_validation (svc : Service) (input : JSValue)
    (st : CacheState) (t0 t1 : Nat)
    (hex : svc.executeImplemented = true)
    (hcp : svc.checkPermissionsImplemented = true) :
    (∀ clean vid st1, validate svc.cls input st = (.ok clean, vid, st1) →
      (run svc input st t0 t1).trace.countP Event.isCheckPermissions = 1 ∧
      ((run svc input st t0 t1).trace.head? = some (.checkPermissionsCalled clean)) ∧
      (∀ ev ∈ (run svc input st t0 t1).trace, ev.isCheckPermissions = true →
        ev = .checkPermissionsCalled clean)) ∧
    (∀ e vid st1, validate svc.cls input st = (.error e, vid, st1) →
      (run svc input st t0 t1).trace.countP Event.isCheckPermissions = 0) := by
  constructor
  · intro clean vid st1 hval
    obtain ⟨tail, htr, htail⟩ :=
      run_trace_shape_ok svc input st t0 t1 clean vid st1 hex hcp hval
    rw [htr]
    refine ⟨?_, rfl, ?_⟩
    · rw [List.countP_cons]
      have : tail.countP Event.isCheckPermissions = 0 :=
        List.countP_eq_zero.mpr (by intro ev hev; simp [htail ev hev])
      simp [this, Event.isCheckPermissions]
    · intro ev hev hcpev
      rcases List.mem_cons.mp hev with h | h
      · exact h
      · rw [htail ev h] at hcpev
        cases hcpev
  · intro e vid st1 hval
    rw [run_validate_error svc input st t0 t1 e vid st1 hex hcp hval,
      handleError_trace]
    simp [Event.isCheckPermissions]

/-- Witness for C3 at a concrete passing input. -/
theorem c3_witness :
    (run (plainService nameSchemaClass) (.vobj [("name", "ada"), ("extra", "1")])
      CacheState.empty 0 1).trace.head? =
      some (.checkPermissionsCalled (.vobj [("name", "ada")])) :=
  ((c3_permissions_after_validation (plainService nameSchemaClass)
      (.vobj [("name", "ada"), ("extra", "1")]) CacheState.empty 0 1 rfl rfl).1
    (.vobj [("name", "ada")]) (some 0) ⟨1, [(2, 0)]⟩ rfl).2.1

theorem handleError_eq_of_ok (svc : Service) (e : JSError) (ctx : RunContext)
    (tr : List Event) (st : CacheState) (h : svc.onError e ctx = .ok ()) :
    handleError svc e ctx tr st = ⟨.error e, tr ++ [.onErrorCalled e ctx], some ctx, st⟩ := by
  unfold handleError
  rw [h]

/-- C2 (amended): on every invocation whose runtime method checks pass
and whose hooks complete normally, exactly one lifecycle hook event
occurs; the outcome is an error exactly when `onError` was invoked
with that same error (re-raised unchanged), and a success value
exactly when `onSuccess` was invoked with it. -/
theorem c2_amended_one_hook (svc : Service) (input : JSValue) (st : CacheState)
    (t0 t1 : Nat)
    (hex : svc.executeImplemented = true)
    (hcp : svc.checkPermissionsImplemented = true)
    (hS : ∀ r c, svc.onSuccess r c = .ok ())
    (hE : ∀ e c, svc.onError e c = .ok ()) :
    (run svc input st t0 t1).trace.countP Event.isHookEvent = 1 ∧
    (∀ e, (run svc input st t0 t1).outcome = .error e →
      ∃ c, Event.onErrorCalled e c ∈ (run svc input st t0 t1).trace) ∧
    (∀ r, (run svc input st t0 t1).outcome = .ok r →
      ∃ c, Event.onSuccessCalled r c ∈ (run svc input st t0 t1).trace) := by
  have hmap : ∀ l : List ExecEvent, (l.map Event.execEv).countP Event.isHookEvent = 0 :=
    fun l => countP_execEv_map l Event.isHookEvent (fun _ => rfl)
  rcases hval : validate svc.cls input st with ⟨res, vid, st1⟩
  rcases res with e | clean
  · rw [run_validate_error svc input st t0 t1 e vid st1 hex hcp hval,
      handleError_eq_of_ok _ _ _ _ _ (hE _ _)]
    refine ⟨by simp [Event.isHookEvent], ?_, ?_⟩
    · intro e2 he2
      simp only at he2
      cases he2
      exact ⟨⟨input, none, t0, none, none⟩, by simp⟩
    · intro r hr
      simp at hr
  · rcases hperm : svc.checkPermissions clean with e | b
    · rw [run_perm_error svc input st t0 t1 clean vid st1 e hex hcp hval hperm,
        handleError_eq_of_ok _ _ _ _ _ (hE _ _)]
      refine ⟨by simp [Event.isHookEvent, List.countP_cons], ?_, ?_⟩
      · intro e2 he2
        simp only at he2
        cases he2
        exact ⟨⟨input, some clean, t0, none, none⟩, by simp⟩
      · intro r hr
        simp at hr
    · rcases hchain : svc.execPhase clean with ⟨trExec, res2⟩
      rcases res2 with e | r
      · rw [run_exec_error svc input st t0 t1 clean vid st1 b trExec e hex hcp hval hperm hchain,
          handleError_eq_of_ok _ _ _ _ _ (hE _ _)]
        refine ⟨?_, ?_, ?_⟩
        · simp [List.countP_append, List.countP_cons, hmap, Event.isHookEvent]
        · intro e2 he2
          simp only at he2
          cases he2
          exact ⟨⟨input, some clean, t0, none, none⟩, by simp⟩
        · intro r hr
          simp at hr
      · rw [run_success svc input st t0 t1 clean vid st1 b trExec r hex hcp hval hperm hchain
          (hS _ _)]
        refine ⟨?_, ?_, ?_⟩
        · simp [List.countP_append, List.countP_cons, hmap, Event.isHookEvent]
        · intro e2 he2
          simp at he2
        · intro r2 hr2
          simp only at hr2
          cases hr2
          exact ⟨⟨input, some clean, t0, some t1, some ((t1 : Int) - (t0 : Int))⟩, by simp⟩

/-- Witness for the amended C2 on a concrete well-behaved service. -/
theorem c2_amended_witness :
    (run (plainService nameSchemaClass) (.vobj []) CacheState.empty 0 1).trace.countP
      Event.isHookEvent = 1 :=
  (c2_amended_one_hook (plainService nameSchemaClass) (.vobj []) CacheState.empty 0 1
    rfl rfl (fun _ _ => rfl) (fun _ _ => rfl)).1

/-- A service whose `onSuccess` hook itself throws. -/
def throwingSuccessService : Service :=
  ⟨⟨3, "ThrowingSuccess", none, fun _ => ⟨none, none⟩⟩, true, true,
    fun _ => .ok true, execLink (fun d => .ok d),
    fun _ _ => .error (.other "HOOK_BOOM"), fun _ _ => .ok ()⟩

/-- Counterexample to C2 as stated: when the execution chain completes
and the `onSuccess` hook itself throws, the catch block of `run` also
invokes `onError`, so BOTH lifecycle hooks are invoked in one
invocation. -/
theorem c2_counterexample :
    (run throwingSuccessService (.vobj []) CacheState.empty 0 1).trace.countP
      Event.isOnSuccess = 1 ∧
    (run throwingSuccessService (.vobj []) CacheState.empty 0 1).trace.countP
      Event.isOnError = 1 := by
  decide

/-- A service whose static `validation` property is a string, not an
object (the malformed-configuration scenario of the test suite). -/
def badValidationService : Service :=
  ⟨⟨5, "BadValidation", some (.vstr "not an object"), fun _ => ⟨none, none⟩⟩, true, true,
    fun _ => .ok true, execLink (fun d => .ok d),
    fun _ _ => .ok (), fun _ _ => .ok ()⟩

/-- Counterexample to C7 as stated: the malformed-schema configuration
error IS delivered to the `onError` hook (the catch block of `run`
makes no distinction between error kinds) before being re-raised. -/
theorem c7_counterexample :
    (run badValidationService (.vobj []) CacheState.empty 0 1).trace =
      [.onErrorCalled (.plainError "BadValidation: validation must be a non-null object")
        ⟨.vobj [], none, 0, none, none⟩] := by
  decide

/-- C7 (amended): when the static `validation` property is present but
not a non-null object, `run` fails fast with a plain configuration
`Error` naming the class — an error distinct from any `ServiceError`
(so in particular not a `VALIDATION_ERROR`) — with no phase ever
invoked; this error is delivered to the `onError` hook and then
re-raised to the caller. -/
theorem c7_amended_malformed_validation (svc : Service) (input : JSValue)
    (st : CacheState) (t0 t1 : Nat) (v : JSValue)
    (hex : svc.executeImplemented = true)
    (hcp : svc.checkPermissionsImplemented = true)
    (hv : svc.cls.validation = some v)
    (hbad : ¬ v.typeofObject = true ∨ v = .vnull) :
    (run svc input st t0 t1).trace =
      [.onErrorCalled (.plainError (svc.cls.name ++ ": validation must be a non-null object"))
        ⟨input, none, t0, none, none⟩] ∧
    (svc.onError (.plainError (svc.cls.name ++ ": validation must be a non-null object"))
        ⟨input, none, t0, none, none⟩ = .ok () →
      (run svc input st t0 t1).outcome =
        .error (.plainError (svc.cls.name ++ ": validation must be a non-null object"))) ∧
    (∀ se, (JSError.plainError (svc.cls.name ++ ": validation must be a non-null object")) ≠
      .serviceError se) := by
  have hval : validate svc.cls input st =
      (.error (.plainError (svc.cls.name ++ ": validation must be a non-null object")),
        none, st) := by
    rcases hbad with h | h
    · simp [validate, hv, if_pos, h]
    · subst h
      simp [validate, hv, JSValue.typeofObject]
  rw [run_validate_error svc input st t0 t1 _ none st hex hcp hval]
  refine ⟨?_, ?_, ?_⟩
  · rw [handleError_trace]
    rfl
  · intro h
    exact handleError_outcome_of_ok _ _ _ _ _ h
  · intro se h
    cases h

/-- Witness for the amended C7 on the concrete malformed service. -/
theorem c7_amended_witness :
    (run badValidationService (.vobj []) CacheState.empty 0 1).outcome =
      .error (.plainError "BadValidation: validation must be a non-null object") :=
  (c7_amended_malformed_validation badValidationService (.vobj []) CacheState.empty 0 1
    (.vstr "not an object") rfl rfl rfl (Or.inl (by decide))).2.1 rfl

/-- A service whose permission check raises a denial error. -/
def denyService : Service :=
  ⟨⟨4, "DenyService", none, fun _ => ⟨none, none⟩⟩, true, true,
    fun _ => .error (.serviceError ⟨[], "PERMISSION_DENIED"⟩), execLink (fun d => .ok d),
    fun _ _ => .ok (), fun _ _ => .ok ()⟩

/-- Counterexample to C6 as stated: after a permission denial the
final context carries non-null `cleanData`, yet `onSuccess` is never
invoked, so `cleanData` being non-null does not imply a later
`onSuccess` invocation. -/
theorem c6_counterexample :
    ((run denyService (.vobj []) CacheState.empty 0 1).finalCtx.map RunContext.cleanData =
      some (some (.vobj []))) ∧
    (run denyService (.vobj []) CacheState.empty 0 1).trace.countP Event.isOnSuccess = 0 := by
  decide

/-- C6 (amended): on every invocation passing the runtime checks, the
final context carries non-null `cleanData` exactly when validation
succeeded (and then exactly the clean data); whenever `onSuccess` is
invoked its context has non-null `cleanData`; and `endTime` together
with `executionTimeMs` is non-null exactly when the execution chain
ran to completion without throwing. -/
theorem c6_amended_context_invariants (svc : Service) (input : JSValue) (st : CacheState)
    (t0 t1 : Nat)
    (hex : svc.executeImplemented = true)
    (hcp : svc.checkPermissionsImplemented = true) :
    (∀ ctx, (run svc input st t0 t1).finalCtx = some ctx →
      (ctx.cleanData = ((validate svc.cls input st).1).toOption) ∧
      ((ctx.endTime ≠ none ∧ ctx.executionTimeMs ≠ none) ↔
        (∃ clean vid st1 b tr r, validate svc.cls input st = (.ok clean, vid, st1) ∧
          svc.checkPermissions clean = .ok b ∧ svc.execPhase clean = (tr, .ok r)))) ∧
    (∀ r c, Event.onSuccessCalled r c ∈ (run svc input st t0 t1).trace →
      c.cleanData ≠ none) := by
  rcases hval : validate svc.cls input st with ⟨res, vid, st1⟩
  rcases res with e | clean
  · rw [run_validate_error svc input st t0 t1 e vid st1 hex hcp hval]
    constructor
    · intro ctx hctx
      rw [handleError_finalCtx] at hctx
      cases hctx
      refine ⟨rfl, ?_⟩
      constructor
      · rintro ⟨h, -⟩
        exact absurd rfl h
      · rintro ⟨clean2, vid2, st2, b, tr, r, hveq, -, -⟩
        simp at hveq
    · intro r c hmem
      rw [handleError_trace] at hmem
      simp at hmem
  · rcases hperm : svc.checkPermissions clean with e | b
    · rw [run_perm_error svc input st t0 t1 clean vid st1 e hex hcp hval hperm]
      constructor
      · intro ctx hctx
        rw [handleError_finalCtx] at hctx
        cases hctx
        refine ⟨rfl, ?_⟩
        constructor
        · rintro ⟨h, -⟩
          exact absurd rfl h
        · rintro ⟨clean2, vid2, st2, b, tr, r, hveq, hp2, -⟩
          simp at hveq
          obtain ⟨h1, -, -⟩ := hveq
          subst h1
          rw [hperm] at hp2
          simp at hp2
      · intro r c hmem
        rw [handleError_trace] at hmem
        simp at hmem
    · rcases hchain : svc.execPhase clean with ⟨trExec, res2⟩
      rcases res2 with e | r
      · rw [run_exec_error svc input st t0 t1 clean vid st1 b trExec e hex hcp hval hperm hchain]
        constructor
        · intro ctx hctx
          rw [handleError_finalCtx] at hctx
          cases hctx
          refine ⟨rfl, ?_⟩
          constructor
          · rintro ⟨h, -⟩
            exact absurd rfl h
          · rintro ⟨clean2, vid2, st2, b2, tr, r, hveq, -, hc2⟩
            simp at hveq
            obtain ⟨h1, -, -⟩ := hveq
            subst h1
            rw [hchain] at hc2
            simp at hc2
        · intro r c hmem
          rw [handleError_trace] at hmem
          simp at hmem
      · rcases hhook : svc.onSuccess r
            ⟨input, some clean, t0, some t1, some ((t1 : Int) - (t0 : Int))⟩ with e | u
        · rw [run_success_hook_throws svc input st t0 t1 clean vid st1 b trExec r e
            hex hcp hval hperm hchain hhook]
          constructor
          · intro ctx hctx
            rw [handleError_finalCtx] at hctx
            cases hctx
            refine ⟨rfl, ?_⟩
            constructor
            · intro _
              exact ⟨clean, vid, st1, b, trExec, r, rfl, hperm, hchain⟩
            · intro _
              exact ⟨by simp, by simp⟩
          · intro r2 c hmem
            rw [handleError_trace] at hmem
            simp at hmem
            rcases hmem with ⟨-, h⟩
            subst h
            simp
        · cases u
          rw [run_success svc input st t0 t1 clean vid st1 b trExec r hex hcp hval hperm hchain hhook]
          constructor
          · intro ctx hctx
            simp only at hctx
            cases hctx
            refine ⟨rfl, ?_⟩
            constructor
            · intro _
              exact ⟨clean, vid, st1, b, trExec, r, rfl, hperm, hchain⟩
            · intro _
              exact ⟨by simp, by simp⟩
          · intro r2 c hmem
            simp only at hmem
            simp at hmem
            rcases hmem with ⟨-, h⟩
            subst h
            simp

/-- Witness for the amended C6 on a concrete successful invocation. -/
theorem c6_amended_witness :
    (⟨.vnull, some (.vobj []), 0, some 1, some 1⟩ : RunContext).cleanData =
      ((validate (plainService noSchemaClass).cls .vnull CacheState.empty).1).toOption :=
  ((c6_amended_context_invariants (plainService noSchemaClass) .vnull CacheState.empty 0 1
    rfl rfl).1 ⟨.vnull, some (.vobj []), 0, some 1, some 1⟩ (by decide)).1

theorem lookup_some_mem {α : Type} {l : List (Nat × α)} {a : Nat} {b : α}
    (h : l.lookup a = some b) : (a, b) ∈ l := by
  induction l with
  | nil => simp [List.lookup] at h
  | cons p t ih =>
      rcases p with ⟨k, v⟩
      by_cases hk : a = k
      · subst hk
        simp [List.lookup] at h
        subst h
        exact List.mem_cons_self _ _
      · have hbeq : (a == k) = false := by simp [hk]
        simp only [List.lookup, hbeq] at h
        exact List.mem_cons_of_mem _ (ih h)

theorem lookup_none_not_key {α : Type} {l : List (Nat × α)} {a : Nat}
    (h : l.lookup a = none) : a ∉ l.map Prod.fst := by
  induction l with
  | nil => simp
  | cons p t ih =>
      rcases p with ⟨k, v⟩
      by_cases hk : a = k
      · subst hk
        simp [List.lookup] at h
      · have hbeq : (a == k) = false := by simp [hk]
        simp only [List.lookup, hbeq] at h
        simp only [List.map_cons, List.mem_cons, not_or]
        exact ⟨hk, ih h⟩

/-- State of the validator cache as stored on the class objects
themselves, for the full prototype-chain model: each entry keys a
class id to the id of the validator instance the class built
(`ctor.__validator` as an own property) together with that instance
itself, i.e. the semantics it was compiled to at build time. -/
structure ProtoCacheState where
  nextId : Nat
  cache : List (Nat × Nat × Engine)

/-- The empty prototype-chain cache. -/
def ProtoCacheState.empty : ProtoCacheState := ⟨0, []⟩

/-- A service class together with the class ids of its service-class
ancestors, nearest first (excluding `ServiceBase` itself, which never
owns a validator).  Needed because a JavaScript static-property read
such as `ctor.__validator` falls through the prototype chain: a
subclass whose ancestor owns a validator sees the inherited one. -/
structure ProtoClass where
  cls : ServiceClass
  ancestors : List Nat

/-- The prototype-chain read of `ctor.__validator` over a chain of
class ids, nearest first: the first class owning a stored validator
provides it; `none` when no class on the chain owns one. -/
def protoRead (st : ProtoCacheState) : List Nat → Option (Nat × Engine)
  | [] => none
  | c :: rest =>
      match st.cache.lookup c with
      | some p => some p
      | none => protoRead st rest

/-- The `validate` method from `ServiceBase.ts` under the full
prototype-chain semantics of the static `__validator` property: the
read `if (!ctor.__validator)` resolves through the chain (own class
first, then ancestors), so an inherited validator — compiled from the
ancestor schema — is found and reused; only on a full-chain miss does
the class build a validator from its own resolved schema and store it
as an own property keyed by the class.  (`Chista.validate` above is
exactly the special case of a class none of whose ancestors can own a
validator, i.e. a direct subclass of `ServiceBase`; its fixtures and
theorems live in that case.) -/
def validateProto (pc : ProtoClass) (data : JSValue) (st : ProtoCacheState) :
    Except JSError JSValue × Option Nat × ProtoCacheState :=
  match pc.cls.validation with
  | none => (.ok (nullish data (.vobj [])), none, st)
  | some v =>
      if ¬ v.typeofObject ∨ v = .vnull then
        (.error (.plainError (pc.cls.name ++ ": validation must be a non-null object")),
          none, st)
      else
        match protoRead st (pc.cls.classId :: pc.ancestors) with
        | some (vid, eng) => (doValidationWithValidator eng data, some vid, st)
        | none =>
            let vid := st.nextId
            let st1 : ProtoCacheState :=
              ⟨st.nextId + 1, (pc.cls.classId, vid, pc.cls.engine) :: st.cache⟩
            (doValidationWithValidator pc.cls.engine data, some vid, st1)

/-- Well-formedness of the prototype-chain cache: every stored
validator id was allocated, no class has two entries, and no two
entries hold the same validator instance id. -/
def ProtoCacheState.wf (st : ProtoCacheState) : Prop :=
  (∀ p ∈ st.cache, p.2.1 < st.nextId) ∧
  (st.cache.map Prod.fst).Nodup ∧ (st.cache.map (fun p => p.2.1)).Nodup

/-- The engine compiled from the parent schema requiring field `a`. -/
def engA : Engine :=
  fun d => match d with
    | .vobj l =>
        match l.lookup "a" with
        | some s => ⟨some (.vobj [("a", s)]), none⟩
        | none => ⟨none, some [("a", "REQUIRED")]⟩
    | _ => ⟨none, some [("a", "REQUIRED")]⟩

/-- The engine compiled from the child schema requiring field `b`. -/
def engB : Engine :=
  fun d => match d with
    | .vobj l =>
        match l.lookup "b" with
        | some s => ⟨some (.vobj [("b", s)]), none⟩
        | none => ⟨none, some [("b", "REQUIRED")]⟩
    | _ => ⟨none, some [("b", "REQUIRED")]⟩

/-- A parent service class with its own schema. -/
def protoClassA : ProtoClass :=
  ⟨⟨10, "ParentService", some (.vobj [("a", "required")]), engA⟩, []⟩

/-- A child service class extending the parent, declaring a different
schema of its own. -/
def protoClassB : ProtoClass :=
  ⟨⟨11, "ChildService", some (.vobj [("b", "required")]), engB⟩, [10]⟩

/-- Counterexample to C5 as stated: after the parent class has run
once, the first invocation of the child class resolves the inherited
`__validator`, so it uses the very validator instance of the parent
(two distinct service definitions share a cached validator), never
builds or stores one keyed by its own class, and even validates with
the parent schema — rejecting an input that satisfies its own. -/
theorem c5_counterexample :
    (validateProto protoClassB (.vobj [("b", "x")])
        (validateProto protoClassA (.vobj [("a", "y")]) ProtoCacheState.empty).2.2).2.1 =
      (validateProto protoClassA (.vobj [("a", "y")]) ProtoCacheState.empty).2.1 ∧
    (((validateProto protoClassB (.vobj [("b", "x")])
        (validateProto protoClassA (.vobj [("a", "y")]) ProtoCacheState.empty).2.2).2.2).cache.lookup
        11).isNone = true ∧
    (validateProto protoClassB (.vobj [("b", "x")])
        (validateProto protoClassA (.vobj [("a", "y")]) ProtoCacheState.empty).2.2).1 =
      .error (.serviceError ⟨[("a", "REQUIRED")], "VALIDATION_ERROR"⟩) :=
  ⟨rfl, rfl, rfl⟩

/-- C5 (amended): a validator is built at most once per class and an
existing cache entry is never overwritten; each invocation uses the
first validator found along the prototype chain, so after the first
resolution a class keeps observing the identical instance; when no
class on the chain owns one, the first invocation builds a fresh
validator and stores it keyed by the class; but when an ancestor
already owns one, the subclass reuses the ancestor instance —
distinct service definitions related by inheritance CAN share a
cached validator — and never builds or stores its own; distinct
cache entries of a well-formed cache always hold distinct validator
instances, from the empty state up. -/
theorem c5_amended_proto_cache (pc : ProtoClass) (data : JSValue) (st : ProtoCacheState)
    (v : JSValue) (hv : pc.cls.validation = some v)
    (hobj : v.typeofObject = true) (hnn : v ≠ .vnull) :
    (∀ vid eng, protoRead st (pc.cls.classId :: pc.ancestors) = some (vid, eng) →
      (validateProto pc data st).2.1 = some vid ∧ (validateProto pc data st).2.2 = st) ∧
    (∀ vid eng, st.cache.lookup pc.cls.classId = none →
      protoRead st pc.ancestors = some (vid, eng) →
      (validateProto pc data st).2.1 = some vid ∧
      ((validateProto pc data st).2.2).cache.lookup pc.cls.classId = none) ∧
    (protoRead st (pc.cls.classId :: pc.ancestors) = none →
      (validateProto pc data st).2.1 = some st.nextId ∧
      ((validateProto pc data st).2.2).cache.lookup pc.cls.classId =
        some (st.nextId, pc.cls.engine) ∧
      ((validateProto pc data st).2.2).nextId = st.nextId + 1) ∧
    (∀ c p, st.cache.lookup c = some p →
      ((validateProto pc data st).2.2).cache.lookup c = some p) ∧
    ProtoCacheState.wf ProtoCacheState.empty ∧
    (st.wf → ((validateProto pc data st).2.2).wf) ∧
    (st.wf → ∀ c1 c2 p1 p2, c1 ≠ c2 → st.cache.lookup c1 = some p1 →
      st.cache.lookup c2 = some p2 → p1.1 ≠ p2.1) := by
  refine ⟨?_, ?_, ?_, ?_, ?_, ?_, ?_⟩
  · intro vid eng hread
    constructor <;> simp [validateProto, hv, hobj, hnn, hread]
  · intro vid eng hown hanc
    have hread : protoRead st (pc.cls.classId :: pc.ancestors) = some (vid, eng) := by
      simp [protoRead, hown, hanc]
    constructor <;> simp [validateProto, hv, hobj, hnn, hread, hown]
  · intro hread
    refine ⟨?_, ?_, ?_⟩ <;> simp [validateProto, hv, hobj, hnn, hread, List.lookup]
  · intro c p hc
    cases hread : protoRead st (pc.cls.classId :: pc.ancestors) with
    | some q =>
        simp [validateProto, hv, hobj, hnn, hread]
        exact hc
    | none =>
        have hown : st.cache.lookup pc.cls.classId = none := by
          cases hl : st.cache.lookup pc.cls.classId with
          | none => rfl
          | some q =>
              rw [protoRead, hl] at hread
              cases hread
        have hne : c ≠ pc.cls.classId := by
          intro h
          subst h
          rw [hc] at hown
          cases hown
        have hbeq : (c == pc.cls.classId) = false := by simp [hne]
        simp [validateProto, hv, hobj, hnn, hread, List.lookup, hbeq]
        exact hc
  · exact ⟨by simp [ProtoCacheState.empty], by simp [ProtoCacheState.empty],
      by simp [ProtoCacheState.empty]⟩
  · intro hwf
    cases hread : protoRead st (pc.cls.classId :: pc.ancestors) with
    | some q =>
        have heq : (validateProto pc data st).2.2 = st := by
          simp [validateProto, hv, hobj, hnn, hread]
        rw [heq]
        exact hwf
    | none =>
        have hown : st.cache.lookup pc.cls.classId = none := by
          cases hl : st.cache.lookup pc.cls.classId with
          | none => rfl
          | some q =>
              rw [protoRead, hl] at hread
              cases hread
        have hkey : pc.cls.classId ∉ st.cache.map Prod.fst := lookup_none_not_key hown
        have hfresh : st.nextId ∉ st.cache.map (fun p => p.2.1) := by
          intro hmem
          obtain ⟨p, hp, hps⟩ := List.mem_map.mp hmem
          have := hwf.1 p hp
          omega
        have heq : (validateProto pc data st).2.2 =
            ⟨st.nextId + 1, (pc.cls.classId, st.nextId, pc.cls.engine) :: st.cache⟩ := by
          simp [validateProto, hv, hobj, hnn, hread]
        rw [heq]
        refine ⟨?_, ?_, ?_⟩
        · intro p hp
          rcases List.mem_cons.mp hp with h | h
          · subst h
            simp
          · exact Nat.lt_succ_of_lt (hwf.1 p h)
        · rw [List.map_cons]
          exact List.nodup_cons.mpr ⟨hkey, hwf.2.1⟩
        · rw [List.map_cons]
          exact List.nodup_cons.mpr ⟨hfresh, hwf.2.2⟩
  · intro hwf c1 c2 p1 p2 hne h1 h2 heq12
    have m1 := lookup_some_mem h1
    have m2 := lookup_some_mem h2
    have hp : (c1, p1) = (c2, p2) :=
      List.inj_on_of_nodup_map hwf.2.2 m1 m2 (by simpa using heq12)
    rw [Prod.mk.injEq] at hp
    exact hne hp.1

/-- Witness for the amended C5: the child class, invoked on a cache
where only the parent owns a validator, reuses the parent instance
(id `0`) and stores nothing of its own. -/
theorem c5_amended_witness :
    (validateProto protoClassB (.vobj []) ⟨1, [(10, 0, engA)]⟩).2.1 = some 0 ∧
    ((validateProto protoClassB (.vobj []) ⟨1, [(10, 0, engA)]⟩).2.2).cache.lookup 11 = none :=
  (c5_amended_proto_cache protoClassB (.vobj []) ⟨1, [(10, 0, engA)]⟩
    (.vobj [("b", "required")]) rfl rfl (by decide)).2.1 0 engA rfl rfl

/-- The execution chain of `n` layered `aroundExecute` overrides over
a business-logic call that succeeds produces exactly the onion
ordering: `before_n ... before_1`, the `execute` call, then
`after_1 ... after_n`. -/
theorem layeredExec_trace (n : Nat) (exec : JSValue → Except JSError JSValue)
    (data r : JSValue) (hexec : exec data = .ok r) :
    layeredExec n (execLink exec) data =
      (((List.range n).reverse.map fun k => ExecEvent.marker ("before_" ++ toString (k + 1))) ++
        [ExecEvent.executeCalled data] ++
        ((List.range n).map fun k => ExecEvent.marker ("after_" ++ toString (k + 1))),
        .ok r) := by
  induction n with
  | zero => simp [layeredExec, execLink, hexec]
  | succ k ih =>
      unfold layeredExec
      rw [ih]
      simp [List.range_succ, List.append_assoc]

/-- C4: for every depth `n ≥ 0` of layered `aroundExecute` overrides
(each running its before step, calling the inherited wrap with the
continuation, then running its after step), a successful `run`
observes `before_n, ..., before_1`, the business-logic `execute` call,
then `after_1, ..., after_n` — most-derived before step first and its
after step last — inside the usual phase events. -/
theorem c4_onion_order (n : Nat) (svc : Service) (input : JSValue) (st : CacheState)
    (t0 t1 : Nat) (exec : JSValue → Except JSError JSValue)
    (clean r : JSValue) (vid : Option Nat) (st1 : CacheState)
    (hex : svc.executeImplemented = true)
    (hcp : svc.checkPermissionsImplemented = true)
    (hchain : svc.execPhase = layeredExec n (execLink exec))
    (hval : validate svc.cls input st = (.ok clean, vid, st1))
    (hperm : svc.checkPermissions clean = .ok true)
    (hexec : exec clean = .ok r)
    (hS : svc.onSuccess r ⟨input, some clean, t0, some t1, some ((t1 : Int) - (t0 : Int))⟩ =
      .ok ()) :
    (run svc input st t0 t1).trace =
      [.checkPermissionsCalled clean, .aroundExecuteCalled clean] ++
        ((((List.range n).reverse.map
            fun k => ExecEvent.marker ("before_" ++ toString (k + 1))) ++
          [ExecEvent.executeCalled clean] ++
          ((List.range n).map
            fun k => ExecEvent.marker ("after_" ++ toString (k + 1)))).map Event.execEv) ++
        [.onSuccessCalled r ⟨input, some clean, t0, some t1, some ((t1 : Int) - (t0 : Int))⟩] ∧
    (run svc input st t0 t1).outcome = .ok r := by
  have hc : svc.execPhase clean =
      (((List.range n).reverse.map fun k => ExecEvent.marker ("before_" ++ toString (k + 1))) ++
        [ExecEvent.executeCalled clean] ++
        ((List.range n).map fun k => ExecEvent.marker ("after_" ++ toString (k + 1))),
        .ok r) := by
    rw [hchain]
    exact layeredExec_trace n exec clean r hexec
  rw [run_success svc input st t0 t1 clean vid st1 true _ r hex hcp hval hperm hc hS]
  exact ⟨rfl, rfl⟩

/-- A concrete service with three layered `aroundExecute` overrides. -/
def layered3Service : Service :=
  ⟨⟨7, "Layered", none, fun _ => ⟨none, none⟩⟩, true, true,
    fun _ => .ok true, layeredExec 3 (execLink (fun d => .ok d)),
    fun _ _ => .ok (), fun _ _ => .ok ()⟩

/-- Witness for C4: three nested wrap layers record exactly
`before_3, before_2, before_1, execute, after_1, after_2, after_3`. -/
theorem c4_witness :
    (run layered3Service (.vobj []) CacheState.empty 0 1).trace =
      [.checkPermissionsCalled (.vobj []), .aroundExecuteCalled (.vobj []),
        .execEv (.marker "before_3"), .execEv (.marker "before_2"),
        .execEv (.marker "before_1"), .execEv (.executeCalled (.vobj [])),
        .execEv (.marker "after_1"), .execEv (.marker "after_2"),
        .execEv (.marker "after_3"),
        .onSuccessCalled (.vobj []) ⟨.vobj [], some (.vobj []), 0, some 1, some 1⟩] := by
  have h := (c4_onion_order 3 layered3Service (.vobj []) CacheState.empty 0 1
    (fun d => .ok d) (.vobj []) (.vobj []) none CacheState.empty
    rfl rfl rfl rfl rfl rfl rfl).1
  rw [h]
  decide

end Chista
